import Mathlib

/-!
Verification of the Proxmox ISO pipeline (`src/builder.py`, `src/firmware.py`,
`src/performance.py`) against its natural-language specification.

The Python code is shallowly embedded: file contents are `List Nat` (bytes),
directories and Python dicts are association lists keyed by `String`,
external collaborators (apt-get, dpkg-deb, cpio) are parameters describing
their observable outcome, and Python exceptions are `Except` values (for the
stateful integration loop the error also carries the on-disk state at the
moment the exception propagates, so that "what was left behind" is provable).
-/

/-- Association-list lookup, mirroring Python dict access / file lookup
in a directory.  First binding wins (keys are unique in every use site). -/
def alookup {β : Type} : List (String × β) → String → Option β
  | [], _ => none
  | (a, v) :: t, k => if a = k then some v else alookup t k

/-- Association-list insert-or-overwrite, mirroring writing a file at a path
(or `dict.__setitem__`). -/
def ainsert {β : Type} : List (String × β) → String → β → List (String × β)
  | [], k, v => [(k, v)]
  | (a, w) :: t, k, v => if a = k then (k, v) :: t else (a, w) :: ainsert t k v

/-- Association-list removal, mirroring deleting a file at a path
(or `dict.pop`). -/
def aerase {β : Type} : List (String × β) → String → List (String × β)
  | [], _ => []
  | (a, w) :: t, k => if a = k then t else (a, w) :: aerase t k

/-- On-disk byte content of the files of one directory, keyed by name. -/
def FileTree : Type := List (String × List Nat)

/-- The error kinds raised by the pipeline; each constructor corresponds to
one raise site of the source.  `isoNotExtracted` is the
`RuntimeError("ISO not extracted yet")` guard of `builder.py`;
`unknownVendor` is the `FirmwareDownloadError("Unknown firmware vendor: ...")`
raise at `firmware.py:121`; `noFirmwareDownloaded` is the
`FirmwareDownloadError("No firmware packages downloaded for ...")` raise at
`firmware.py:141`; `firmwareIntegration` is `FirmwareIntegrationError`;
`bootValidation` is the `RuntimeError("EFI boot image not found ...")` raise
of `validate_boot_files`. -/
inductive PipelineError where
  | isoNotExtracted : PipelineError
  | unknownVendor (vendor : String) : PipelineError
  | noFirmwareDownloaded (vendor : String) : PipelineError
  | firmwareIntegration : PipelineError
  | bootValidation : PipelineError
  deriving DecidableEq, Repr

/-- The built-in default firmware sources of
`FirmwareManager._load_firmware_sources` (`firmware.py:82-102`), used when no
`config/firmware-sources.json` override file exists. -/
def defaultFirmwareSources : List (String × List String) :=
  [("freeware", ["firmware-linux-free", "firmware-misc-nonfree"]),
   ("nvidia", ["nvidia-driver", "nvidia-firmware-graphics",
               "firmware-nvidia-graphics"]),
   ("amd", ["amdgpu-firmware", "firmware-amd-graphics", "amd64-microcode"]),
   ("intel", ["intel-microcode", "firmware-intel-sound", "i915-firmware"])]

/-- Observable outcome of `FirmwareManager._download_package`
(`firmware.py:147-192`): the returned path (None is modelled as `none`) and
whether the external `apt-get download` collaborator was invoked.
The function is total: the `subprocess.CalledProcessError` of the external
tool is caught inside it (logged) and surfaces as a `none` result, never as
an exception. -/
structure FetchOutcome where
  result : Option String
  invokedDownloader : Bool
  deriving DecidableEq, Repr

/-- Embedding of `FirmwareManager._download_package` (`firmware.py:147-192`).
`cacheHit` is whether `cache_dir/<name>.deb` exists, `apt` the outcome of the
external `apt-get download` collaborator and `globMatches` the files the
subsequent `cache_dir.glob(name ++ "*.deb")` would report (the code returns
the first match, or None when there is none). -/
def downloadPackage (packageName : String) (cacheHit : Bool) (force : Bool)
    (apt : Except Unit Unit) (globMatches : List String) : FetchOutcome :=
  if cacheHit && !force then
    { result := some (packageName ++ ".deb"), invokedDownloader := false }
  else
    match apt with
    | .error _ => { result := none, invokedDownloader := true }
    | .ok _ => { result := globMatches.head?, invokedDownloader := true }

/-- Embedding of `FirmwareManager.download_firmware` (`firmware.py:104-145`).
`sources` is the vendor → package-list mapping, `fetch` gives the per-package
behaviour of `_download_package` as seen by this loop: `.error` models a
raised exception (caught and logged by the loop, which then continues),
`.ok none` a `None` return, `.ok (some p)` a returned path. -/
def download_firmware (sources : List (String × List String))
    (fetch : String → Except Unit (Option String)) (vendor : String) :
    Except PipelineError (List String) :=
  match alookup sources vendor with
  | none => .error (.unknownVendor vendor)
  | some packages =>
      let downloaded := packages.foldl
        (fun acc p =>
          match fetch p with
          | .error _ => acc
          | .ok none => acc
          | .ok (some path) => acc ++ [path]) []
      if downloaded.isEmpty then .error (.noFirmwareDownloaded vendor)
      else .ok downloaded

/-- The packages that `download_firmware` actually collects: those whose
fetch neither raised nor returned None, in list order. -/
def collectedPackages (fetch : String → Except Unit (Option String))
    (packages : List String) : List String :=
  packages.filterMap (fun p =>
    match fetch p with
    | .ok (some path) => some path
    | _ => none)

/-- One package as seen by `FirmwareManager.integrate_firmware`: the outcome
of the external `dpkg-deb -x` extraction collaborator.  `none` models an
extraction (or subsequent copy) failure; `some files` the regular files the
extracted tree holds under `lib/firmware`, as relative path → bytes. -/
structure PackageExtraction where
  extractOutcome : Option (List (String × List Nat))
  deriving DecidableEq, Repr

/-- The on-disk state mutated by `FirmwareManager.integrate_firmware`:
whether the `cache_dir/temp_extract` directory currently exists, and the
contents of the `<iso_root>/firmware` directory. -/
structure IntegrateState where
  tempExtractExists : Bool
  firmwareFiles : List (String × List Nat)
  deriving DecidableEq, Repr

/-- Copy every payload file into the firmware directory, overwriting on
path collision (the `shutil.copy2` loop at `firmware.py:277-283`). -/
def overwriteAll (dest : List (String × List Nat))
    (files : List (String × List Nat)) : List (String × List Nat) :=
  files.foldl (fun d kv => ainsert d kv.1 kv.2) dest

/-- One iteration of the per-package loop of
`FirmwareManager.integrate_firmware` (`firmware.py:266-292`): create
`temp_extract` (mkdir, exist_ok), run the extraction collaborator, copy the
payload, then remove `temp_extract`.  The `shutil.rmtree` cleanup is
executed only on the success path — on failure the exception propagates to
the `except` clause, which re-raises `FirmwareIntegrationError` without
removing the directory, so the error carries a state whose
`tempExtractExists` is still `true`. -/
def integrateStep (st : IntegrateState) (pkg : PackageExtraction) :
    Except (PipelineError × IntegrateState) IntegrateState :=
  let st1 : IntegrateState := { st with tempExtractExists := true }
  match pkg.extractOutcome with
  | none => .error (.firmwareIntegration, st1)
  | some files =>
      .ok { tempExtractExists := false,
            firmwareFiles := overwriteAll st1.firmwareFiles files }

/-- Embedding of `FirmwareManager.integrate_firmware`
(`firmware.py:250-296`): process the packages in order, aborting the whole
integration on the first failing package. -/
def integrate_firmware_manager (pkgs : List PackageExtraction)
    (st : IntegrateState) :
    Except (PipelineError × IntegrateState) IntegrateState :=
  match pkgs with
  | [] => .ok st
  | p :: rest =>
      match integrateStep st p with
      | .error e => .error e
      | .ok st1 => integrate_firmware_manager rest st1

/-- Embedding of `ProxmoxISOBuilder.integrate_firmware` (`builder.py:222-238`):
the builder-level wrapper first checks the extraction-root guard
(`iso_root is None` → `RuntimeError("ISO not extracted yet")`) and only then
delegates to the firmware manager. -/
def integrate_firmware_builder (isoRootSet : Bool)
    (pkgs : List PackageExtraction) (st : IntegrateState) :
    Except (PipelineError × IntegrateState) IntegrateState :=
  if !isoRootSet then .error (.isoNotExtracted, st)
  else integrate_firmware_manager pkgs st

/-- One entry of a source microcode directory as reported by
`src_dir.glob("*")`: its name, whether it is a regular file, and its bytes
(meaningful only for regular files). -/
structure DirEntry where
  name : String
  isFile : Bool
  content : List Nat
  deriving DecidableEq, Repr

/-- Python's `str.endswith`: the second string's characters are a suffix of
the first string's characters. -/
def strEndsWith (s t : String) : Bool :=
  List.isSuffixOf t.data s.data

/-- The filter applied inside the write loop of
`ProxmoxISOBuilder._combine_microcode_files` (`builder.py:265`): keep regular
files whose name does not end in `.initramfs`. -/
def microcodeKeep (e : DirEntry) : Bool :=
  e.isFile && !(strEndsWith e.name ".initramfs")

/-- Python's lexicographic string ordering, comparing code points
position by position. -/
def nameLe : List Char → List Char → Bool
  | [], _ => true
  | _ :: _, [] => false
  | a :: as_, b :: bs =>
    if a.toNat < b.toNat then true
    else if b.toNat < a.toNat then false
    else nameLe as_ bs

/-- Ordering of directory entries by name, as `sorted(files)` orders paths
of one directory. -/
def entryLe (a b : DirEntry) : Prop :=
  nameLe a.name.data b.name.data = true

instance : DecidableRel entryLe := fun _ _ => Bool.decEq _ _

instance : IsTotal DirEntry entryLe :=
  ⟨by
    have key : ∀ a b : List Char, nameLe a b = true ∨ nameLe b a = true := by
      intro a
      induction a with
      | nil => intro b; left; rfl
      | cons x as_ ih =>
          intro b
          cases b with
          | nil => right; rfl
          | cons y bs =>
              by_cases h1 : x.toNat < y.toNat
              · left; simp [nameLe, h1]
              · by_cases h2 : y.toNat < x.toNat
                · right; simp [nameLe, h2]
                · rcases ih bs with h | h
                  · left; simp [nameLe, h1, h2, h]
                  · right; simp [nameLe, h1, h2, h]
    exact fun a b => key a.name.data b.name.data⟩

instance : IsTrans DirEntry entryLe :=
  ⟨by
    have key : ∀ a b c : List Char,
        nameLe a b = true → nameLe b c = true → nameLe a c = true := by
      intro a
      induction a with
      | nil => intro b c _ _; rfl
      | cons x as_ ih =>
          intro b c hab hbc
          cases b with
          | nil => simp [nameLe] at hab
          | cons y bs =>
              cases c with
              | nil => simp [nameLe] at hbc
              | cons z cs =>
                  have hxy : x.toNat ≤ y.toNat := by
                    by_contra hgt
                    simp [nameLe, show ¬ x.toNat < y.toNat by omega,
                      show y.toNat < x.toNat by omega] at hab
                  have hyz : y.toNat ≤ z.toNat := by
                    by_contra hgt
                    simp [nameLe, show ¬ y.toNat < z.toNat by omega,
                      show z.toNat < y.toNat by omega] at hbc
                  by_cases h5 : x.toNat < z.toNat
                  · simp [nameLe, h5]
                  · have htail_ab : nameLe as_ bs = true := by
                      simpa [nameLe, show ¬ x.toNat < y.toNat by omega,
                        show ¬ y.toNat < x.toNat by omega] using hab
                    have htail_bc : nameLe bs cs = true := by
                      simpa [nameLe, show ¬ y.toNat < z.toNat by omega,
                        show ¬ z.toNat < y.toNat by omega] using hbc
                    simp [nameLe, h5, show ¬ z.toNat < x.toNat by omega]
                    exact ih bs cs htail_ab htail_bc
    exact fun a b c h1 h2 => key a.name.data b.name.data c.name.data h1 h2⟩

/-- `sorted(files)` of `builder.py:263`: the entries of one directory sorted
by name (for paths in the same directory, Python path ordering is
lexicographic name ordering). -/
def sortEntriesByName (l : List DirEntry) : List DirEntry :=
  List.insertionSort entryLe l

/-- Embedding of `ProxmoxISOBuilder._combine_microcode_files`
(`builder.py:240-271`).  The pair is (returned boolean, bytes of the
`<vendor>.bin` blob written under the destination directory — `none` when
the early returns fire and no blob is written). -/
def combineMicrocodeFiles (srcExists : Bool) (entries : List DirEntry) :
    Bool × Option (List Nat) :=
  if !srcExists then (false, none)
  else if entries.isEmpty then (false, none)
  else
    let blob := (sortEntriesByName entries).foldl
      (fun acc e => if microcodeKeep e then acc ++ e.content else acc) []
    (decide (0 < blob.length), some blob)

/-- The byte concatenation, in name-sorted order, of every regular file of a
directory whose name does not end in `.initramfs` — the value
`_combine_microcode_files` is specified to write. -/
def concatMicrocode (entries : List DirEntry) : List Nat :=
  (((sortEntriesByName entries).filter microcodeKeep).map
    (fun e => e.content)).flatten

/-- Number of characters after the last '.' of the reversed-name argument
(`none` when it holds no '.'): scanning a name's reversal from the head is
scanning the name from its end, so this locates the last dot, as
`str.rfind('.')` does inside Python's `PurePath.suffix`. -/
def distToDot : List Char → Option Nat
  | [] => none
  | c :: rest => if c = '.' then some 0 else (distToDot rest).map (· + 1)

/-- Length of Python's `PurePath.suffix` for a file name: with `i` the index
of the last dot, the suffix is `name[i:]` when `0 < i < len(name) - 1` and
empty otherwise; in terms of the distance `d` from the end that is
`0 < d ∧ d < len - 1`, giving length `d + 1`. -/
def pySuffixLen (name : List Char) : Nat :=
  match distToDot name.reverse with
  | none => 0
  | some d => if 0 < d && d < name.length - 1 then d + 1 else 0

/-- Python's `PurePath.stem` for a file name: the name with its suffix
removed. -/
def pyStem (name : List Char) : List Char :=
  name.take (name.length - pySuffixLen name)

/-- Python's `PurePath.with_suffix(".img.orig")` applied to a file name, as
used at `builder.py:307` to derive the backup name of the initial RAM disk
(`initrd.img` ↦ `initrd.img.orig`). -/
def withSuffixImgOrig (name : String) : String :=
  String.mk (pyStem name.data ++ (".img.orig").data)

/-- Embedding of `ProxmoxISOBuilder._prepend_microcode_to_initrd`
(`builder.py:296-324`) over the directory holding the ramdisk: no-op when
the initrd file does not exist; otherwise `sudo mv` the ramdisk to its
`.img.orig` sibling, then `cat early_cpio initrd_orig > initrd` creates a
new file at the original path holding the archive bytes followed by the
original bytes. -/
def prependMicrocodeToInitrd (archive : List Nat) (initrdName : String)
    (fs : FileTree) : FileTree :=
  match alookup fs initrdName with
  | none => fs
  | some content =>
      let orig := withSuffixImgOrig initrdName
      let fs1 := ainsert (aerase fs initrdName) orig content
      ainsert fs1 initrdName (archive ++ content)

/-- How `ProxmoxISOBuilder.build_early_microcode` ends: skipped because
neither vendor source directory exists (`builder.py:346-348`), skipped
because no microcode file was combined (`builder.py:367-369`), or an
archive was built and prepended. -/
inductive MicrocodeOutcome where
  | skippedNoDirs : MicrocodeOutcome
  | skippedNoFiles : MicrocodeOutcome
  | built : MicrocodeOutcome
  deriving DecidableEq, Repr

/-- Embedding of `ProxmoxISOBuilder.build_early_microcode`
(`builder.py:326-381`).  `mkCpio` is the external `find | cpio -o -H newc`
archiving collaborator, given the two blob files the temp tree may hold;
`fs` is the directory holding the initial RAM disk (`boot/initrd.img`).
Returns the outcome and the resulting directory; the error case is the
extraction-root guard. -/
def build_early_microcode (isoRootSet : Bool)
    (mkCpio : Option (List Nat) → Option (List Nat) → List Nat)
    (intelExists amdExists : Bool) (intelEntries amdEntries : List DirEntry)
    (initrdName : String) (fs : FileTree) :
    Except (PipelineError × FileTree) (MicrocodeOutcome × FileTree) :=
  if !isoRootSet then .error (.isoNotExtracted, fs)
  else if !intelExists && !amdExists then .ok (.skippedNoDirs, fs)
  else
    let intel := combineMicrocodeFiles intelExists intelEntries
    let amd := combineMicrocodeFiles amdExists amdEntries
    if !intel.1 && !amd.1 then .ok (.skippedNoFiles, fs)
    else
      .ok (.built,
        prependMicrocodeToInitrd (mkCpio intel.2 amd.2) initrdName fs)

/-- Embedding of `ProxmoxISOBuilder.copy_post_install_script`
(`builder.py:383-433`): guard on the extraction root, then either copy the
helper script into the image root (marking it executable) or, when no
candidate location holds it, warn and leave the tree unchanged.  `script`
is the first found candidate's bytes. -/
def copy_post_install_script (isoRootSet : Bool)
    (script : Option (List Nat)) (fs : FileTree) :
    Except (PipelineError × FileTree) FileTree :=
  if !isoRootSet then .error (.isoNotExtracted, fs)
  else
    match script with
    | none => .ok fs
    | some bytes => .ok (ainsert fs "post-install-firmware.sh" bytes)

/-- Embedding of `ProxmoxISOBuilder.validate_boot_files`
(`builder.py:435-478`): guard on the extraction root; a missing `efi.img`
raises (the `BootValidationError` of the specification); a missing
`isolinux/isolinux.bin` or GRUB configuration is log-only. -/
def validate_boot_files (isoRootSet hasEfi hasIsolinux grubFound : Bool) :
    Except PipelineError Bool :=
  if !isoRootSet then .error .isoNotExtracted
  else if !hasEfi then .error .bootValidation
  else .ok true

/-- `version.replace(".", "")` of `builder.py:548`: every '.' character
removed. -/
def stripDots (s : String) : String :=
  String.mk (s.data.filter (fun c => c ≠ '.'))

/-- The fixed part of the xorriso command line (`builder.py:542-551`). -/
def xorrisoBase (version : String) : List String :=
  ["xorriso", "-as", "mkisofs", "-r", "-V", "PVE" ++ stripDots version,
   "-J", "-joliet-long"]

/-- The BIOS (isolinux) boot flags appended when
`isolinux/isolinux.bin` exists (`builder.py:554-567`). -/
def biosBootFlags : List String :=
  ["-b", "isolinux/isolinux.bin", "-c", "isolinux/boot.cat",
   "-no-emul-boot", "-boot-load-size", "4", "-boot-info-table"]

/-- The `-isohybrid-mbr` flags appended when a MBR template was found
(`builder.py:570-572`). -/
def mbrFlags : Option String → List String
  | none => []
  | some m => ["-isohybrid-mbr", m]

/-- The UEFI boot flags appended when `efi.img` exists
(`builder.py:575-589`). -/
def uefiBootFlags (isoRoot : String) : List String :=
  ["-eltorito-alt-boot", "-e", "efi.img", "-no-emul-boot",
   "-append_partition", "2", "0xef", isoRoot ++ "/efi.img",
   "-isohybrid-gpt-basdat"]

/-- Embedding of `ProxmoxISOBuilder.rebuild_iso` (`builder.py:505-614`) up
to the external xorriso invocation: guard on the extraction root, run
`validate_boot_files`, then assemble the xorriso command line, including
the BIOS block only when the legacy loader binary is present and the UEFI
block only when the EFI boot image is present.  The observable settled here
is the assembled argv. -/
def rebuild_iso (isoRootSet : Bool) (isoRoot version outputPath : String)
    (hasIsolinux hasEfi grubFound : Bool) (mbr : Option String) :
    Except PipelineError (List String) :=
  if !isoRootSet then .error .isoNotExtracted
  else
    match validate_boot_files isoRootSet hasEfi hasIsolinux grubFound with
    | .error e => .error e
    | .ok _ =>
        .ok (xorrisoBase version
          ++ (if hasIsolinux then biosBootFlags ++ mbrFlags mbr else [])
          ++ (if hasEfi then uefiBootFlags isoRoot else [])
          ++ ["-o", outputPath, isoRoot])

/-- `leadsList xs ys` holds when `xs` matches the front of `ys`
element-for-element. -/
def leadsList : List String → List String → Bool
  | [], _ => true
  | _ :: _, [] => false
  | a :: as_, b :: bs => a = b && leadsList as_ bs

/-- `segIn xs ys` holds when `xs` occurs in `ys` as one contiguous run:
the decidable reading of "the command line includes this flag block". -/
def segIn (xs ys : List String) : Bool :=
  leadsList xs ys ||
    match ys with
    | [] => false
    | _ :: t => segIn xs t

/-- Embedding of `TimingRecord` (`performance.py:15-28`); instants are
abstract naturals supplied by the clock. -/
structure TimingRecord where
  name : String
  stage : String
  startTime : Nat
  endTime : Option Nat
  duration : Option Nat
  deriving DecidableEq, Repr

/-- Embedding of `PerformanceTracker` (`performance.py:31-36`): the
append-only records sequence and the active-timer dict. -/
structure PerformanceTracker where
  records : List TimingRecord
  activeTimers : List (String × TimingRecord)
  deriving DecidableEq, Repr

/-- The dict key `f"{stage}:{name}"` of `performance.py:54`. -/
def timerKey (name stage : String) : String := stage ++ ":" ++ name

/-- Embedding of `PerformanceTracker.stop_timer` (`performance.py:59-76`):
pop the active timer under its key; when absent, return None leaving the
tracker as it was; when present, complete the record at the current clock
instant, append it to the records sequence and return it. -/
def stop_timer (now : Nat) (tracker : PerformanceTracker)
    (name stage : String) : PerformanceTracker × Option TimingRecord :=
  match alookup tracker.activeTimers (timerKey name stage) with
  | none => (tracker, none)
  | some r =>
      let r1 : TimingRecord :=
        { r with endTime := some now, duration := some (now - r.startTime) }
      ({ records := tracker.records ++ [r1],
         activeTimers := aerase tracker.activeTimers (timerKey name stage) },
       some r1)

theorem alookup_ainsert_self {β : Type} (l : List (String × β)) (k : String)
    (v : β) : alookup (ainsert l k v) k = some v := by
  induction l with
  | nil => simp [ainsert, alookup]
  | cons p t ih =>
      obtain ⟨a, w⟩ := p
      by_cases h : a = k
      · simp [ainsert, alookup, h]
      · simp [ainsert, alookup, h, ih]

theorem alookup_ainsert_ne {β : Type} (l : List (String × β)) (k k' : String)
    (v : β) (h : k' ≠ k) : alookup (ainsert l k v) k' = alookup l k' := by
  induction l with
  | nil => simp [ainsert, alookup, Ne.symm h]
  | cons p t ih =>
      obtain ⟨a, w⟩ := p
      by_cases hak : a = k
      · subst hak
        simp [ainsert, alookup, Ne.symm h]
      · simp [ainsert, alookup, hak, ih]

theorem download_foldl (fetch : String → Except Unit (Option String))
    (packages : List String) : ∀ acc : List String,
    packages.foldl (fun acc p =>
        match fetch p with
        | .error _ => acc
        | .ok none => acc
        | .ok (some path) => acc ++ [path]) acc
      = acc ++ collectedPackages fetch packages := by
  induction packages with
  | nil => intro acc; simp [collectedPackages]
  | cons p t ih =>
      intro acc
      cases hf : fetch p with
      | error e => simp [collectedPackages, List.filterMap_cons, hf, ih]
      | ok o =>
          cases o with
          | none => simp [collectedPackages, List.filterMap_cons, hf, ih]
          | some path =>
              simp [collectedPackages, List.filterMap_cons, hf, ih,
                List.append_assoc]

/-- Claim C10: stopping a timer whose (stage, name) key has no active timer
returns None and leaves the tracker — its append-only records sequence and
its active-timer map — exactly as it was. -/
theorem stopTimer_missing_noop (now : Nat) (tracker : PerformanceTracker)
    (name stage : String)
    (h : alookup tracker.activeTimers (timerKey name stage) = none) :
    stop_timer now tracker name stage = (tracker, none) := by
  simp [stop_timer, h]

theorem stopTimer_missing_noop_witness :
    stop_timer 5 { records := [], activeTimers := [] } "download_iso"
      "download" = ({ records := [], activeTimers := [] }, none) :=
  stopTimer_missing_noop 5 { records := [], activeTimers := [] }
    "download_iso" "download" rfl

/-- Claim C9: with the extraction root unset, firmware integration, the
early-microcode build, auxiliary script staging, boot validation and the
image remaster all fail at once with the `isoNotExtracted` guard error,
performing no mutation (each returned state equals the input state). -/
theorem failFast_unset_extraction_root
    (pkgs : List PackageExtraction) (st : IntegrateState)
    (mkCpio : Option (List Nat) → Option (List Nat) → List Nat)
    (intelExists amdExists : Bool) (intelEntries amdEntries : List DirEntry)
    (initrdName : String) (fs fs2 : FileTree) (script : Option (List Nat))
    (isoRoot version outputPath : String)
    (hasIsolinux hasEfi grubFound : Bool) (mbr : Option String) :
    integrate_firmware_builder false pkgs st
        = .error (.isoNotExtracted, st) ∧
      build_early_microcode false mkCpio intelExists amdExists intelEntries
          amdEntries initrdName fs = .error (.isoNotExtracted, fs) ∧
      copy_post_install_script false script fs2
        = .error (.isoNotExtracted, fs2) ∧
      validate_boot_files false hasEfi hasIsolinux grubFound
        = .error .isoNotExtracted ∧
      rebuild_iso false isoRoot version outputPath hasIsolinux hasEfi
        grubFound mbr = .error .isoNotExtracted :=
  ⟨rfl, rfl, rfl, rfl, rfl⟩

/-- Claim C8: a vendor outside {freeware, nvidia, amd, intel} makes the
package-listing step of `download_firmware` (over the built-in catalog)
fail with the unknown-vendor input-validation error. -/
theorem unknownVendor_spec (vendor : String)
    (fetch : String → Except Unit (Option String))
    (h : vendor ∉ ["freeware", "nvidia", "amd", "intel"]) :
    download_firmware defaultFirmwareSources fetch vendor
      = .error (.unknownVendor vendor) := by
  simp only [List.mem_cons, List.not_mem_nil, or_false, not_or] at h
  obtain ⟨h1, h2, h3, h4⟩ := h
  have hl : alookup defaultFirmwareSources vendor = none := by
    simp [defaultFirmwareSources, alookup, Ne.symm h1, Ne.symm h2,
      Ne.symm h3, Ne.symm h4]
  simp [download_firmware, hl]

theorem unknownVendor_witness :
    download_firmware defaultFirmwareSources (fun _ => Except.ok none)
      "realtek" = .error (.unknownVendor "realtek") :=
  unknownVendor_spec "realtek" (fun _ => Except.ok none) (by decide)

/-- Claim C6: a cache hit with forceRefresh false returns the cached
artifact path without invoking the external download collaborator, and on
any path where the external collaborator is invoked and fails the fetch
returns None (the embedding is a total function: the collaborator failure
is absorbed, never re-raised). -/
theorem fetch_cache_spec (packageName : String) (apt : Except Unit Unit)
    (globMatches : List String) :
    downloadPackage packageName true false apt globMatches
        = { result := some (packageName ++ ".deb"),
            invokedDownloader := false } ∧
      (∀ cacheHit force : Bool, apt = Except.error () →
        ¬(cacheHit = true ∧ force = false) →
        downloadPackage packageName cacheHit force apt globMatches
          = { result := none, invokedDownloader := true }) := by
  constructor
  · simp [downloadPackage]
  · intro cacheHit force hapt hnot
    subst hapt
    cases cacheHit <;> cases force <;> simp_all [downloadPackage]

theorem fetch_cache_witness :
    downloadPackage "intel-microcode" true false (Except.error ()) []
        = { result := some ("intel-microcode" ++ ".deb"),
            invokedDownloader := false } ∧
      downloadPackage "intel-microcode" false false (Except.error ()) []
        = { result := none, invokedDownloader := true } :=
  ⟨(fetch_cache_spec "intel-microcode" (Except.error ()) []).1,
   (fetch_cache_spec "intel-microcode" (Except.error ()) []).2 false false
     rfl (by simp)⟩

/-- Claim C5: over a vendor's package list, each individual fetch failure
(raised or None) is skipped and the loop continues, the successful paths
are returned in order, and `FirmwareDownloadError` (the
`noFirmwareDownloaded` constructor) is raised exactly when the collected
list is empty. -/
theorem fetchVendor_spec (sources : List (String × List String))
    (fetch : String → Except Unit (Option String)) (vendor : String)
    (packages : List String)
    (hlook : alookup sources vendor = some packages)
    (hne : packages ≠ []) :
    (download_firmware sources fetch vendor
        = .error (.noFirmwareDownloaded vendor)
      ↔ collectedPackages fetch packages = []) ∧
      (collectedPackages fetch packages ≠ [] →
        download_firmware sources fetch vendor
          = .ok (collectedPackages fetch packages)) := by
  have hrew : download_firmware sources fetch vendor
      = if (collectedPackages fetch packages).isEmpty
        then .error (.noFirmwareDownloaded vendor)
        else .ok (collectedPackages fetch packages) := by
    simp [download_firmware, hlook, download_foldl]
  by_cases hc : collectedPackages fetch packages = []
  · refine ⟨⟨fun _ => hc, fun _ => ?_⟩, fun hcontra => absurd hc hcontra⟩
    rw [hrew]
    simp [hc]
  · have hie : (collectedPackages fetch packages).isEmpty = false := by
      simpa [List.isEmpty_iff] using hc
    refine ⟨?_, fun _ => ?_⟩
    · rw [hrew, hie]
      simp [hc]
    · rw [hrew, hie]
      simp

theorem fetchVendor_witness :
    download_firmware defaultFirmwareSources
        (fun p => if p = "amdgpu-firmware" then Except.error ()
          else if p = "firmware-amd-graphics" then Except.ok none
          else Except.ok (some "amd64-microcode.deb")) "amd"
      = .ok ["amd64-microcode.deb"] := by
  have h := (fetchVendor_spec defaultFirmwareSources
    (fun p => if p = "amdgpu-firmware" then Except.error ()
      else if p = "firmware-amd-graphics" then Except.ok none
      else Except.ok (some "amd64-microcode.deb")) "amd"
    ["amdgpu-firmware", "firmware-amd-graphics", "amd64-microcode"]
    (by decide) (by decide)).2 (by decide)
  exact h.trans rfl

theorem integrate_cex_state :
    integrate_firmware_manager [{ extractOutcome := none }]
        { tempExtractExists := false, firmwareFiles := [] }
      = .error (.firmwareIntegration,
          { tempExtractExists := true, firmwareFiles := [] }) := rfl

/-- Claim C4 (amended): the temporary extraction directory is removed after
each package that integrates successfully, but when a package's extraction
or copying fails, the whole integration aborts with
`FirmwareIntegrationError` and the temporary extraction directory is left
in place (it is not cleaned up on the failure path). -/
theorem integrate_temp_cleanup (pkgs : List PackageExtraction)
    (st : IntegrateState) :
    (∀ st1, integrate_firmware_manager pkgs st = .ok st1 →
        st1.tempExtractExists
          = (if pkgs.isEmpty then st.tempExtractExists else false)) ∧
      (∀ e st1, integrate_firmware_manager pkgs st = .error (e, st1) →
        e = PipelineError.firmwareIntegration ∧
          st1.tempExtractExists = true) := by
  induction pkgs generalizing st with
  | nil =>
      constructor
      · intro st1 hok
        simp [integrate_firmware_manager] at hok
        simp [← hok]
      · intro e st1 herr
        simp [integrate_firmware_manager] at herr
  | cons p t ih =>
      constructor
      · intro st1 hok
        simp only [integrate_firmware_manager, integrateStep] at hok
        cases hx : p.extractOutcome with
        | none => rw [hx] at hok; simp at hok
        | some files =>
            rw [hx] at hok
            simp only [] at hok
            have := (ih _).1 st1 hok
            rw [this]
            by_cases ht : t.isEmpty <;> simp [ht]
      · intro e st1 herr
        simp only [integrate_firmware_manager, integrateStep] at herr
        cases hx : p.extractOutcome with
        | none =>
            rw [hx] at herr
            simp at herr
            exact ⟨herr.1.symm, by rw [← herr.2]⟩
        | some files =>
            rw [hx] at herr
            simp only [] at herr
            exact (ih _).2 e st1 herr

theorem integrate_temp_cleanup_witness :
    IntegrateState.tempExtractExists
        { tempExtractExists := false, firmwareFiles := [("x", [1])] }
      = (if ([{ extractOutcome := some [("x", [1])] }] :
            List PackageExtraction).isEmpty
         then IntegrateState.tempExtractExists
           { tempExtractExists := true, firmwareFiles := [] }
         else false) :=
  (integrate_temp_cleanup [{ extractOutcome := some [("x", [1])] }]
      { tempExtractExists := true, firmwareFiles := [] }).1
    { tempExtractExists := false, firmwareFiles := [("x", [1])] } rfl

theorem microcode_foldl (l : List DirEntry) : ∀ acc : List Nat,
    l.foldl (fun acc e => if microcodeKeep e then acc ++ e.content else acc)
        acc
      = acc ++ ((l.filter microcodeKeep).map (fun e => e.content)).flatten := by
  induction l with
  | nil => intro acc; simp
  | cons e t ih =>
      intro acc
      by_cases h : microcodeKeep e
      · simp [h, ih, List.filter_cons, List.append_assoc]
      · simp [h, ih, List.filter_cons]

/-- Claim C1: `_combine_microcode_files` returns false writing no blob when
the source directory does not exist or holds no entries; otherwise the blob
it writes is the byte concatenation, in name-sorted order, of every regular
file whose name does not end in `.initramfs`, and it returns true exactly
when that blob is non-empty. -/
theorem combineVendorMicrocode_spec (srcExists : Bool)
    (entries : List DirEntry) :
    ((srcExists = false ∨ entries = []) →
        combineMicrocodeFiles srcExists entries = (false, none)) ∧
      (srcExists = true → entries ≠ [] →
        (combineMicrocodeFiles srcExists entries).2
            = some (concatMicrocode entries) ∧
          ((combineMicrocodeFiles srcExists entries).1 = true
            ↔ concatMicrocode entries ≠ [])) := by
  constructor
  · rintro (h | h)
    · subst h; simp [combineMicrocodeFiles]
    · subst h; cases srcExists <;> simp [combineMicrocodeFiles]
  · intro hs hne
    subst hs
    cases entries with
    | nil => exact absurd rfl hne
    | cons e t =>
        have hfold := microcode_foldl (sortEntriesByName (e :: t)) []
        simp only [List.nil_append] at hfold
        have hcomb : combineMicrocodeFiles true (e :: t)
            = (decide (0 < (concatMicrocode (e :: t)).length),
               some (concatMicrocode (e :: t))) := by
          show (decide (0 < (List.foldl
                (fun acc e => if microcodeKeep e then acc ++ e.content
                  else acc) [] (sortEntriesByName (e :: t))).length),
              some (List.foldl
                (fun acc e => if microcodeKeep e then acc ++ e.content
                  else acc) [] (sortEntriesByName (e :: t))))
            = (decide (0 < (concatMicrocode (e :: t)).length),
               some (concatMicrocode (e :: t)))
          rw [hfold]
          rfl
        refine ⟨?_, ?_⟩
        · rw [hcomb]
        · rw [hcomb]
          simp [List.length_pos]

theorem combineVendorMicrocode_witness :
    (combineMicrocodeFiles true
          [{ name := "b.initramfs", isFile := true, content := [3] },
           { name := "a.bin", isFile := true, content := [1, 2] }]).2
        = some (concatMicrocode
            [{ name := "b.initramfs", isFile := true, content := [3] },
             { name := "a.bin", isFile := true, content := [1, 2] }]) ∧
      concatMicrocode
          [{ name := "b.initramfs", isFile := true, content := [3] },
           { name := "a.bin", isFile := true, content := [1, 2] }]
        = [1, 2] := by
  have h := (combineVendorMicrocode_spec true
    [{ name := "b.initramfs", isFile := true, content := [3] },
     { name := "a.bin", isFile := true, content := [1, 2] }]).2 rfl
    (by decide)
  exact ⟨h.1, by decide⟩

theorem pyStem_of_append_imgorig (l s : List Char)
    (hd : s ++ (".img.orig").data = l) :
    pyStem l = s ++ ('.' :: 'i' :: 'm' :: 'g' :: []) := by
  have ht : (".img.orig").data = ['.', 'i', 'm', 'g', '.', 'o', 'r', 'i', 'g'] :=
    rfl
  rw [ht] at hd
  have hlen : l.length = s.length + 9 := by
    rw [← hd]; simp
  have hrev : l.reverse = ['g', 'i', 'r', 'o', '.', 'g', 'm', 'i', '.']
      ++ s.reverse := by
    rw [← hd, List.reverse_append]
    exact congrArg (fun x => x ++ s.reverse) rfl
  have hdist : distToDot l.reverse = some 4 := by
    rw [hrev]
    simp [distToDot, List.cons_append]
  have hsuf : pySuffixLen l = 5 := by
    have hc : (decide (0 < 4) && decide (4 < s.length + 9 - 1)) = true := by
      simp only [Bool.and_eq_true, decide_eq_true_eq]
      omega
    unfold pySuffixLen
    rw [hdist, hlen]
    show (if (decide (0 < 4) && decide (4 < s.length + 9 - 1)) = true
        then 4 + 1 else 0) = 5
    rw [if_pos hc]
  unfold pyStem
  rw [hsuf, hlen, ← hd]
  have h9 : s.length + 9 - 5 = s.length + 4 := by omega
  rw [h9, List.take_append]
  rfl

theorem withSuffixImgOrig_ne (name : String) :
    withSuffixImgOrig name ≠ name := by
  intro h
  have hd : pyStem name.data ++ (".img.orig").data = name.data :=
    congrArg String.data h
  have hstem := pyStem_of_append_imgorig name.data (pyStem name.data) hd
  have hlen := congrArg List.length hstem
  simp [List.length_append] at hlen

/-- Claim C2: `_prepend_microcode_to_initrd` is a no-op when the initrd
file does not exist; otherwise the file at the original path afterwards is
the archive's bytes followed byte-for-byte by the original bytes, and the
original content is preserved unchanged under the renamed `.orig` sibling
(a distinct name ending in `.orig`). -/
theorem prependToInitialRamdisk_spec (archive : List Nat)
    (initrdName : String) (fs : FileTree) :
    (alookup fs initrdName = none →
        prependMicrocodeToInitrd archive initrdName fs = fs) ∧
      (∀ content, alookup fs initrdName = some content →
        alookup (prependMicrocodeToInitrd archive initrdName fs) initrdName
            = some (archive ++ content) ∧
          alookup (prependMicrocodeToInitrd archive initrdName fs)
              (withSuffixImgOrig initrdName) = some content ∧
          withSuffixImgOrig initrdName ≠ initrdName ∧
          (withSuffixImgOrig initrdName).data
            = (pyStem initrdName.data ++ (".img").data) ++ (".orig").data) := by
  constructor
  · intro h
    simp [prependMicrocodeToInitrd, h]
  · intro content hc
    have hne := withSuffixImgOrig_ne initrdName
    refine ⟨?_, ?_, hne, ?_⟩
    · simp only [prependMicrocodeToInitrd, hc]
      exact alookup_ainsert_self _ _ _
    · simp only [prependMicrocodeToInitrd, hc]
      rw [alookup_ainsert_ne _ _ _ _ hne]
      exact alookup_ainsert_self _ _ _
    · simp [withSuffixImgOrig, List.append_assoc]

theorem prependToInitialRamdisk_witness :
    alookup (prependMicrocodeToInitrd [1] "initrd.img"
          [("initrd.img", [9, 8])]) "initrd.img" = some ([1] ++ [9, 8]) ∧
      alookup (prependMicrocodeToInitrd [1] "initrd.img"
          [("initrd.img", [9, 8])]) (withSuffixImgOrig "initrd.img")
        = some [9, 8] ∧
      withSuffixImgOrig "initrd.img" = "initrd.img.orig" := by
  have h := (prependToInitialRamdisk_spec [1] "initrd.img"
    [("initrd.img", [9, 8])]).2 [9, 8] rfl
  exact ⟨h.1, h.2.1, by decide⟩

/-- Claim C3: when neither the Intel nor the AMD microcode combination
reports added (which covers the case that neither source subtree exists),
`build_early_microcode` raises no error, produces no archive (the outcome
is one of the two skip signals, never `built`) and leaves the directory
holding the initial RAM disk byte-for-byte unchanged. -/
theorem buildEarlyArchive_noop
    (mkCpio : Option (List Nat) → Option (List Nat) → List Nat)
    (intelExists amdExists : Bool)
    (intelEntries amdEntries : List DirEntry)
    (initrdName : String) (fs : FileTree)
    (hIntel : (combineMicrocodeFiles intelExists intelEntries).1 = false)
    (hAmd : (combineMicrocodeFiles amdExists amdEntries).1 = false) :
    build_early_microcode true mkCpio intelExists amdExists intelEntries
          amdEntries initrdName fs
        = .ok (MicrocodeOutcome.skippedNoDirs, fs) ∨
      build_early_microcode true mkCpio intelExists amdExists intelEntries
          amdEntries initrdName fs
        = .ok (MicrocodeOutcome.skippedNoFiles, fs) := by
  by_cases h : (!intelExists && !amdExists) = true
  · left
    simp [build_early_microcode, h]
  · right
    simp only [build_early_microcode, Bool.not_true, Bool.false_eq_true,
      if_false, h]
    simp [h, hIntel, hAmd]

theorem buildEarlyArchive_noop_witness :
    build_early_microcode true (fun _ _ => []) true false
          [{ name := "x.initramfs", isFile := true, content := [1] }] []
          "initrd.img" [("initrd.img", [9])]
        = .ok (MicrocodeOutcome.skippedNoDirs, [("initrd.img", [9])]) ∨
      build_early_microcode true (fun _ _ => []) true false
          [{ name := "x.initramfs", isFile := true, content := [1] }] []
          "initrd.img" [("initrd.img", [9])]
        = .ok (MicrocodeOutcome.skippedNoFiles, [("initrd.img", [9])]) :=
  buildEarlyArchive_noop (fun _ _ => []) true false
    [{ name := "x.initramfs", isFile := true, content := [1] }] []
    "initrd.img" [("initrd.img", [9])] (by decide) (by decide)

theorem leadsList_self_append (xs post : List String) :
    leadsList xs (xs ++ post) = true := by
  induction xs with
  | nil => rfl
  | cons a t ih => simp [leadsList, ih]

theorem segIn_append_middle (pre xs post : List String) :
    segIn xs (pre ++ (xs ++ post)) = true := by
  induction pre with
  | nil =>
      rw [List.nil_append, segIn.eq_def]
      simp [leadsList_self_append]
  | cons a t ih =>
      rw [List.cons_append, segIn.eq_def]
      simp [ih]

theorem mem_of_segIn_cons (x : String) (xs ys : List String)
    (h : segIn (x :: xs) ys = true) : x ∈ ys := by
  induction ys with
  | nil => simp [segIn, leadsList] at h
  | cons b t ih =>
      rw [segIn.eq_def] at h
      simp only [Bool.or_eq_true] at h
      rcases h with h | h
      · have hx : x = b := by
          simp only [leadsList, Bool.and_eq_true, decide_eq_true_eq] at h
          exact h.1
        rw [hx]
        exact List.mem_cons_self b t
      · exact List.mem_cons_of_mem b (ih h)

/-- Claim C7: the remaster command line includes the BIOS boot flag block
exactly when `isolinux/isolinux.bin` is present and the UEFI boot flag
block exactly when `efi.img` is present, and the rebuild fails with the
boot-validation error when the EFI boot image is absent. -/
theorem rebuild_boot_flags (isoRoot version outputPath : String)
    (hasIsolinux hasEfi grubFound : Bool) (mbr : Option String) :
    (hasEfi = false →
        rebuild_iso true isoRoot version outputPath hasIsolinux hasEfi
          grubFound mbr = .error .bootValidation) ∧
      (match rebuild_iso true isoRoot version outputPath hasIsolinux hasEfi
          grubFound mbr with
        | .error e => e = PipelineError.bootValidation
        | .ok cmd => segIn biosBootFlags cmd = hasIsolinux
            ∧ segIn (uefiBootFlags isoRoot) cmd = hasEfi) := by
  cases hasEfi with
  | false => exact ⟨fun _ => rfl, rfl⟩
  | true =>
      refine ⟨fun h => Bool.noConfusion h, ?_⟩
      cases hasIsolinux with
      | true =>
          show segIn biosBootFlags
              (xorrisoBase version ++ (biosBootFlags ++ mbrFlags mbr)
                ++ uefiBootFlags isoRoot ++ ["-o", outputPath, isoRoot])
                = true
            ∧ segIn (uefiBootFlags isoRoot)
              (xorrisoBase version ++ (biosBootFlags ++ mbrFlags mbr)
                ++ uefiBootFlags isoRoot ++ ["-o", outputPath, isoRoot])
                = true
          constructor
          · have h := segIn_append_middle (xorrisoBase version) biosBootFlags
              (mbrFlags mbr ++ (uefiBootFlags isoRoot
                ++ ["-o", outputPath, isoRoot]))
            simpa [List.append_assoc] using h
          · have h := segIn_append_middle
              (xorrisoBase version ++ (biosBootFlags ++ mbrFlags mbr))
              (uefiBootFlags isoRoot) ["-o", outputPath, isoRoot]
            simpa [List.append_assoc] using h
      | false =>
          show segIn biosBootFlags
              (xorrisoBase version ++ [] ++ uefiBootFlags isoRoot
                ++ ["-o", outputPath, isoRoot]) = false
            ∧ segIn (uefiBootFlags isoRoot)
              (xorrisoBase version ++ [] ++ uefiBootFlags isoRoot
                ++ ["-o", outputPath, isoRoot]) = true
          constructor
          · simp [segIn, leadsList, biosBootFlags, xorrisoBase,
              uefiBootFlags]
          · have h := segIn_append_middle (xorrisoBase version)
              (uefiBootFlags isoRoot) ["-o", outputPath, isoRoot]
            simpa [List.append_assoc] using h

theorem rebuild_boot_flags_witness :
    segIn biosBootFlags (xorrisoBase "9.1" ++ uefiBootFlags "/iso"
        ++ ["-o", "/out.iso", "/iso"]) = false ∧
      segIn (uefiBootFlags "/iso") (xorrisoBase "9.1" ++ uefiBootFlags "/iso"
        ++ ["-o", "/out.iso", "/iso"]) = true :=
  (rebuild_boot_flags "/iso" "9.1" "/out.iso" false true true none).2
